import Mathlib

/-!
Verification of the CivicLens backend service (`backend/svc.py`).

The development shallowly embeds the decision logic of the service:
the length policy `clamp_lengths`, the token-bucket rate limiter
`rl_allow`, the text normalizer `clean_text`, the word counter
`word_count`, and the orchestration of the `/summarize` and
`/summarize-html` endpoints.  Python integers are modelled as `ℤ`
(word counts, which are lengths of lists, as `ℕ`), Python floats as
exact rationals `ℚ`, and Python strings as `List Char`.

One floating-point subtlety is resolved up front: the source computes
`int(input_words * 1.2)` in IEEE-754 double arithmetic.  For every
word count `w` in the range where this expression is used (`w < 80`),
the double computation yields exactly `⌊6 * w / 5⌋`, so the embedding
uses integer division by 5.
-/

namespace CivicLens

/-- Error codes of the service (closed set). -/
inductive ErrorCode where
  | RATE_LIMIT
  | NO_CONTENT
  | BAD_LENGTHS
  | FETCH_FAILED
  | MODEL_FAILURE
deriving DecidableEq

/-- Hard cap `MAX_INPUT_CHARS = 8000` from the source. -/
def MAX_INPUT_CHARS : ℕ := 8000

/-- Absolute floor `MIN_ALLOWED = 1` from the source. -/
def MIN_ALLOWED : ℤ := 1

/-- Absolute ceiling `MAX_ALLOWED = 240` from the source. -/
def MAX_ALLOWED : ℤ := 240

/-- Result of the length policy: either resolved bounds or an error. -/
inductive LResult where
  | ok (min_len max_len : ℤ)
  | error (code : ErrorCode)
deriving DecidableEq

/-- The tightened ceiling `min(120, max(40, int(input_words * 1.2)))` of
`clamp_lengths`.  `int(w * 1.2)` (Python double arithmetic, truncation
toward zero) equals `6 * w / 5` rounded down for all `w < 80`. -/
def new_max_of (w : ℕ) : ℤ := min 120 (max 40 ((6 * (w : ℤ)) / 5))

/-- First validation step of `clamp_lengths`: require
`1 <= min_len < max_len <= 240`; otherwise clamp `min_len` up to 1 and
`max_len` down to 240 and fail if still `min_len >= max_len`. -/
def step1 (min_len max_len : ℤ) : LResult :=
  if MIN_ALLOWED ≤ min_len ∧ min_len < max_len ∧ max_len ≤ MAX_ALLOWED then
    .ok min_len max_len
  else
    if max MIN_ALLOWED min_len < min MAX_ALLOWED max_len then
      .ok (max MIN_ALLOWED min_len) (min MAX_ALLOWED max_len)
    else .error .BAD_LENGTHS

/-- Short-input adjustment of `clamp_lengths` (the `input_words < 80`
branch): shrink `max_len` to the tightened ceiling, force it to 2 if it
dropped below 2, pull `min_len` down to `max_len - 10` when that stays
at or above the floor (else force it to the floor), and re-validate. -/
def shortAdjust (min_len max_len : ℤ) (input_words : ℕ) : LResult :=
  let new_max := new_max_of input_words
  let max_len := min max_len new_max
  let max_len := if max_len < 2 then 2 else max_len
  let min_len :=
    if MIN_ALLOWED ≤ max_len - 10 then min min_len (max_len - 10) else MIN_ALLOWED
  if MIN_ALLOWED ≤ min_len ∧ min_len < max_len ∧ max_len ≤ MAX_ALLOWED then
    .ok min_len max_len
  else .error .BAD_LENGTHS

/-- The length policy `clamp_lengths(min_len, max_len, input_words)` of
the source: validate/clamp the requested bounds, then adapt them when
the input is short (`input_words < 80`). -/
def clamp_lengths (min_len max_len : ℤ) (input_words : ℕ) : LResult :=
  match step1 min_len max_len with
  | .error e => .error e
  | .ok m M => if input_words < 80 then shortAdjust m M input_words else .ok m M

/-- On success, `step1` yields bounds satisfying `1 ≤ m < M ≤ 240`. -/
theorem step1_ok_inv {mi ma m M : ℤ} (h : step1 mi ma = .ok m M) :
    1 ≤ m ∧ m < M ∧ M ≤ 240 := by
  unfold step1 MIN_ALLOWED MAX_ALLOWED at h
  split at h
  · rename_i hv
    cases h
    omega
  · split at h
    · rename_i hv hlt
      cases h
      omega
    · cases h

/-- The tightened ceiling always lies in `[40, 120]`. -/
theorem new_max_of_bounds (w : ℕ) : 40 ≤ new_max_of w ∧ new_max_of w ≤ 120 := by
  unfold new_max_of
  omega

/-- Under the invariant established by `step1`, the short-input
adjustment always succeeds, its intermediate `max_len` never drops
below 2, and the adjusted bounds again satisfy `1 ≤ m' < M' ≤ 240`
with `M' = min M (new_max_of w)`. -/
theorem shortAdjust_eq {m M : ℤ} (w : ℕ) (h1 : 1 ≤ m) (h2 : m < M)
    (h3 : M ≤ 240) :
    shortAdjust m M w =
      .ok (if 1 ≤ min M (new_max_of w) - 10
            then min m (min M (new_max_of w) - 10) else 1)
        (min M (new_max_of w)) ∧
    2 ≤ min M (new_max_of w) := by
  obtain ⟨h40, h120⟩ := new_max_of_bounds w
  unfold shortAdjust MIN_ALLOWED MAX_ALLOWED
  constructor
  · have hnotlt : ¬ (min M (new_max_of w) < 2) := by omega
    simp only [hnotlt, if_false]
    split
    · rename_i hgap
      have hok : 1 ≤ min m (min M (new_max_of w) - 10) ∧
          min m (min M (new_max_of w) - 10) < min M (new_max_of w) ∧
          min M (new_max_of w) ≤ 240 := by omega
      simp only [hok, and_true, if_true, hgap]
    · rename_i hgap
      have hok : (1 : ℤ) ≤ 1 ∧ (1 : ℤ) < min M (new_max_of w) ∧
          min M (new_max_of w) ≤ 240 := by omega
      simp only [hok, and_true, if_true, hgap, if_false]
  · omega

/-- Success form of `shortAdjust` under the `step1` invariant. -/
theorem shortAdjust_ok {m M : ℤ} (w : ℕ) (h1 : 1 ≤ m) (h2 : m < M)
    (h3 : M ≤ 240) :
    ∃ m' M', shortAdjust m M w = .ok m' M' ∧ 1 ≤ m' ∧ m' < M' ∧
      M' ≤ 240 ∧ M' ≤ new_max_of w := by
  obtain ⟨heq, h2le⟩ := shortAdjust_eq w h1 h2 h3
  obtain ⟨h40, h120⟩ := new_max_of_bounds w
  refine ⟨_, _, heq, ?_, ?_, ?_, ?_⟩
  · split <;> omega
  · split <;> omega
  · omega
  · omega

/-- When the requested bounds are already valid, `step1` passes them
through unchanged. -/
theorem step1_valid {mi ma : ℤ} (hv : 1 ≤ mi ∧ mi < ma ∧ ma ≤ 240) :
    step1 mi ma = .ok mi ma := by
  unfold step1 MIN_ALLOWED MAX_ALLOWED
  rw [if_pos hv]

/-- When the requested bounds are invalid but clamping repairs them,
`step1` returns the clamped bounds. -/
theorem step1_invalid_ok {mi ma : ℤ} (hv : ¬(1 ≤ mi ∧ mi < ma ∧ ma ≤ 240))
    (hlt : max 1 mi < min 240 ma) :
    step1 mi ma = .ok (max 1 mi) (min 240 ma) := by
  unfold step1 MIN_ALLOWED MAX_ALLOWED
  rw [if_neg hv, if_pos hlt]

/-- When the requested bounds are invalid and clamping cannot repair
them, `step1` fails with `BAD_LENGTHS`. -/
theorem step1_invalid_err {mi ma : ℤ} (hv : ¬(1 ≤ mi ∧ mi < ma ∧ ma ≤ 240))
    (hge : ¬ max 1 mi < min 240 ma) :
    step1 mi ma = .error .BAD_LENGTHS := by
  unfold step1 MIN_ALLOWED MAX_ALLOWED
  rw [if_neg hv, if_neg hge]

/-- For word counts of at least 80 the length policy is exactly the
first validation step. -/
theorem clamp_lengths_ge80 {mi ma : ℤ} {w : ℕ} (hw : 80 ≤ w) :
    clamp_lengths mi ma w = step1 mi ma := by
  unfold clamp_lengths
  cases hs : step1 mi ma with
  | error e => rfl
  | ok m M => exact if_neg (by omega : ¬ w < 80)

/-- The truncating integer computation used by the code is bounded by
the rounding computation named in the spec: `⌊6w/5⌋ ≤ round(1.2·w)`. -/
theorem int_div_le_round (w : ℕ) :
    (6 * (w : ℤ)) / 5 ≤ round ((w : ℚ) * 1.2) := by
  have h1 : ((w : ℚ) * 1.2) = (((6 * (w : ℤ) : ℤ)) : ℚ) / ((5 : ℕ) : ℚ) := by
    push_cast
    norm_num
    ring
  have h2 : ((6 * (w : ℤ)) / 5 : ℤ) = ⌊(((6 * (w : ℤ) : ℤ)) : ℚ) / ((5 : ℕ) : ℚ)⌋ :=
    (Rat.floor_intCast_div_natCast _ _).symm
  rw [h1, round_eq, h2]
  exact Int.floor_mono (by linarith)

/-- For word counts below 80 the length policy is the first validation
step followed by the short-input adjustment. -/
theorem clamp_lengths_lt80 {mi ma m M : ℤ} {w : ℕ} (hw : w < 80)
    (hs : step1 mi ma = .ok m M) :
    clamp_lengths mi ma w = shortAdjust m M w := by
  unfold clamp_lengths
  rw [hs]
  exact if_pos hw

/-- C1 (counterexample): `clamp_lengths 60 180 10` does not return
`min_len = 2, max_len = 12` as the claim states; it returns
`min_len = 30, max_len = 40`. -/
theorem clamp_lengths_60_180_10_not_2_12 :
    clamp_lengths 60 180 10 = .ok 30 40 ∧
    clamp_lengths 60 180 10 ≠ .ok 2 12 := by
  decide

/-- C1 (amended): `clamp_lengths 60 180 10` succeeds with
`max_len ≤ 120`; specifically it yields `min_len = 30, max_len = 40`,
because the tightened ceiling is `min(120, max(40, int(10·1.2))) = 40`
(the floor 40 overrides the value 12) and the 10-unit gap rule pulls
`min_len` down to `40 - 10 = 30`. -/
theorem clamp_lengths_60_180_10 :
    clamp_lengths 60 180 10 = .ok 30 40 ∧ (40 : ℤ) ≤ 120 := by
  decide

/-- C2: for every word count `w < 80` and all integer bounds on which
the length policy succeeds, the resolved `max_len` is at most
`clamp(40, 120, round(w · 1.2))` and the resolved bounds satisfy
`min_len < max_len`. -/
theorem clamp_lengths_short_ceiling (mi ma : ℤ) (w : ℕ) (hw : w < 80)
    (m M : ℤ) (h : clamp_lengths mi ma w = .ok m M) :
    M ≤ min 120 (max 40 (round ((w : ℚ) * 1.2))) ∧ m < M := by
  cases hs : step1 mi ma with
  | ok m1 M1 =>
    rw [clamp_lengths_lt80 hw hs] at h
    obtain ⟨h1, h2, h3⟩ := step1_ok_inv hs
    obtain ⟨heq, h2le⟩ := shortAdjust_eq w h1 h2 h3
    rw [heq] at h
    cases h
    obtain ⟨h40, h120⟩ := new_max_of_bounds w
    have hr := int_div_le_round w
    constructor
    · have hb : new_max_of w ≤ min 120 (max 40 (round ((w : ℚ) * 1.2))) := by
        unfold new_max_of
        omega
      omega
    · split <;> omega
  | error e =>
    unfold clamp_lengths at h
    rw [hs] at h
    exact LResult.noConfusion h

/-- C2 (witness): the claim instantiated at `resolve(60, 180, 10)`,
which succeeds with bounds `(30, 40)`. -/
theorem clamp_lengths_short_ceiling_witness :
    (40 : ℤ) ≤ min 120 (max 40 (round ((10 : ℚ) * 1.2))) ∧ (30 : ℤ) < 40 :=
  clamp_lengths_short_ceiling 60 180 10 (by decide) 30 40 (by decide)

/-- C3: for word counts of at least 80, valid bounds
`1 ≤ min_len < max_len ≤ 240` pass through unchanged; invalid bounds
are clamped (`min_len` up to 1, `max_len` down to 240) and the call
fails with `BAD_LENGTHS` exactly when the clamped `min_len` is at least
the clamped `max_len`; in particular `resolve(150, 100, 90)` fails
with `BAD_LENGTHS`. -/
theorem clamp_lengths_long_regime (mi ma : ℤ) (w : ℕ) (hw : 80 ≤ w) :
    ((1 ≤ mi ∧ mi < ma ∧ ma ≤ 240) → clamp_lengths mi ma w = .ok mi ma) ∧
    (¬(1 ≤ mi ∧ mi < ma ∧ ma ≤ 240) →
      (clamp_lengths mi ma w = .error .BAD_LENGTHS ↔ min 240 ma ≤ max 1 mi) ∧
      (max 1 mi < min 240 ma →
        clamp_lengths mi ma w = .ok (max 1 mi) (min 240 ma))) ∧
    clamp_lengths 150 100 90 = .error .BAD_LENGTHS := by
  rw [clamp_lengths_ge80 hw]
  refine ⟨fun hv => step1_valid hv, fun hv => ⟨?_, ?_⟩, by decide⟩
  · constructor
    · intro herr
      by_contra hlt
      rw [step1_invalid_ok hv (by omega)] at herr
      exact LResult.noConfusion herr
    · intro hge
      exact step1_invalid_err hv (by omega)
  · intro hlt
    exact step1_invalid_ok hv hlt

/-- C3 (witness): at word count 90 the valid bounds `(60, 180)` pass
through unchanged, and `resolve(150, 100, 90)` fails. -/
theorem clamp_lengths_long_regime_witness :
    clamp_lengths 60 180 90 = .ok 60 180 ∧
    clamp_lengths 150 100 90 = .error .BAD_LENGTHS := by
  obtain ⟨h1, -, h3⟩ := clamp_lengths_long_regime 60 180 90 (by decide)
  exact ⟨h1 (by norm_num), h3⟩

/-- C9: in the short-input regime (`w < 80`), once the first validation
step has succeeded, the intermediate tightened `max_len` never drops
below 2 (so the forcing branch is unreachable), the short-input
adjustment never fails (so the final re-validation failure branch is
unreachable), and the policy returns bounds satisfying
`1 ≤ min_len < max_len ≤ 240`. -/
theorem clamp_lengths_short_no_late_failure (mi ma m M : ℤ) (w : ℕ)
    (hw : w < 80) (hs : step1 mi ma = .ok m M) :
    ¬ (min M (new_max_of w) < 2) ∧
    shortAdjust m M w ≠ .error .BAD_LENGTHS ∧
    ∃ m' M', clamp_lengths mi ma w = .ok m' M' ∧ 1 ≤ m' ∧ m' < M' ∧
      M' ≤ 240 := by
  obtain ⟨h1, h2, h3⟩ := step1_ok_inv hs
  obtain ⟨heq, h2le⟩ := shortAdjust_eq w h1 h2 h3
  obtain ⟨m', M', heq', hm1, hmM, hM, -⟩ := shortAdjust_ok w h1 h2 h3
  refine ⟨by omega, ?_, m', M', ?_, hm1, hmM, hM⟩
  · rw [heq']
    exact fun hc => LResult.noConfusion hc
  · rw [clamp_lengths_lt80 hw hs]
    exact heq'

/-- C9 (witness): instantiated at `resolve(60, 180, 10)`, whose first
validation step succeeds with bounds `(60, 180)`. -/
theorem clamp_lengths_short_no_late_failure_witness :
    ¬ (min (180 : ℤ) (new_max_of 10) < 2) ∧
    shortAdjust 60 180 10 ≠ .error .BAD_LENGTHS := by
  obtain ⟨h1, h2, -⟩ :=
    clamp_lengths_short_no_late_failure 60 180 60 180 10 (by decide) (by decide)
  exact ⟨h1, h2⟩

/-- Per-client token bucket state `{"tokens": float, "ts": float}` of
the source, with floats modelled as exact rationals. -/
structure RateBucket where
  tokens : ℚ
  ts : ℚ
deriving DecidableEq

/-- Rate-limit configuration: `RL_MAX` requests per `RL_MINUTES`
minutes.  The source forces both to at least 1 via `max(1, ...)`. -/
structure RLConfig where
  rl_max : ℕ
  rl_minutes : ℕ
deriving DecidableEq

/-- Refill rate `RL_REFILL_PER_SEC = RL_MAX / (RL_MINUTES * 60.0)`. -/
def RLConfig.refill (c : RLConfig) : ℚ :=
  (c.rl_max : ℚ) / ((c.rl_minutes : ℚ) * 60)

/-- The refilled token count of a bucket at time `now`:
`min(RL_MAX, tokens + elapsed * RL_REFILL_PER_SEC)` with
`elapsed = max(0.0, now - ts)`. -/
def rl_tokens (cfg : RLConfig) (rb : RateBucket) (now : ℚ) : ℚ :=
  min (cfg.rl_max : ℚ) (rb.tokens + max 0 (now - rb.ts) * cfg.refill)

/-- The limiter `rl_allow` of the source, restricted to one client
identifier: given that client's bucket (or `none` on the first-ever
request) and the current time, it returns
`((allowed, retry_after_seconds), updated bucket)`.  A fresh bucket is
pre-charged by one token (`RL_MAX - 1`); otherwise the bucket is
refilled, then one token is consumed if at least one is available,
else the call is denied with
`retry = max(1.0, (1 - tokens) / RL_REFILL_PER_SEC)` (or 60 when the
refill rate is zero). -/
def rl_allow (cfg : RLConfig) (b : Option RateBucket) (now : ℚ) :
    (Bool × ℚ) × RateBucket :=
  match b with
  | none => ((true, 0), ⟨(cfg.rl_max : ℚ) - 1, now⟩)
  | some rb =>
    if 1 ≤ rl_tokens cfg rb now then
      ((true, 0), ⟨rl_tokens cfg rb now - 1, now⟩)
    else
      ((false,
        max 1 (if 0 < cfg.refill then (1 - rl_tokens cfg rb now) / cfg.refill else 60)),
        ⟨rl_tokens cfg rb now, now⟩)

/-- Bucket state after `n` consecutive requests, all at time `now`,
from a fresh client identifier. -/
def rl_afterN (cfg : RLConfig) (now : ℚ) : ℕ → Option RateBucket
  | 0 => none
  | n + 1 => some (rl_allow cfg (rl_afterN cfg now n) now).2

/-- Result `(allowed, retry_after)` of request number `n + 1` in a run
of consecutive requests at time `now` from a fresh client. -/
def rl_resultN (cfg : RLConfig) (now : ℚ) (n : ℕ) : Bool × ℚ :=
  (rl_allow cfg (rl_afterN cfg now n) now).1

/-- Bucket state after the burst of `RL_MAX` admitted requests plus one
denied request, all at time `now`, from a fresh client. -/
def rl_state_after_burst (cfg : RLConfig) (now : ℚ) : RateBucket :=
  (rl_allow cfg (rl_afterN cfg now cfg.rl_max) now).2

/-- The waiting time `window_seconds / capacity` of the spec. -/
def rl_wait_time (cfg : RLConfig) : ℚ :=
  ((cfg.rl_minutes : ℚ) * 60) / (cfg.rl_max : ℚ)

/-- Invariant of a rate bucket: `0 <= tokens <= capacity`. -/
def bucketInv (cfg : RLConfig) (rb : RateBucket) : Prop :=
  0 ≤ rb.tokens ∧ rb.tokens ≤ (cfg.rl_max : ℚ)

/-- The refill rate is nonnegative. -/
theorem refill_nonneg (cfg : RLConfig) : 0 ≤ cfg.refill := by
  unfold RLConfig.refill
  positivity

/-- The refill rate is positive for any configuration the source can
build (both fields forced to at least 1). -/
theorem refill_pos (cfg : RLConfig) (hc : 1 ≤ cfg.rl_max)
    (hm : 1 ≤ cfg.rl_minutes) : 0 < cfg.refill := by
  unfold RLConfig.refill
  have h1 : (0 : ℚ) < (cfg.rl_max : ℚ) := by exact_mod_cast hc
  have h2 : (0 : ℚ) < (cfg.rl_minutes : ℚ) := by exact_mod_cast hm
  positivity

/-- The refilled token count stays within `[0, capacity]` whenever the
incoming bucket satisfies the invariant. -/
theorem rl_tokens_bounds (cfg : RLConfig) (rb : RateBucket) (now : ℚ)
    (hb : bucketInv cfg rb) :
    0 ≤ rl_tokens cfg rb now ∧ rl_tokens cfg rb now ≤ (cfg.rl_max : ℚ) := by
  obtain ⟨h0, hc⟩ := hb
  have he : (0 : ℚ) ≤ max 0 (now - rb.ts) := le_max_left _ _
  have hr := refill_nonneg cfg
  constructor
  · exact le_min (by linarith) (add_nonneg h0 (mul_nonneg he hr))
  · exact min_le_left _ _

/-- Unfolding of `rl_allow` on a first-ever request. -/
theorem rl_allow_none (cfg : RLConfig) (now : ℚ) :
    rl_allow cfg none now = ((true, 0), ⟨(cfg.rl_max : ℚ) - 1, now⟩) := rfl

/-- Unfolding of `rl_allow` when at least one token is available. -/
theorem rl_allow_some_allowed (cfg : RLConfig) (rb : RateBucket) (now : ℚ)
    (h : 1 ≤ rl_tokens cfg rb now) :
    rl_allow cfg (some rb) now =
      ((true, 0), ⟨rl_tokens cfg rb now - 1, now⟩) :=
  if_pos h

/-- Unfolding of `rl_allow` when fewer than one token is available. -/
theorem rl_allow_some_denied (cfg : RLConfig) (rb : RateBucket) (now : ℚ)
    (h : ¬ 1 ≤ rl_tokens cfg rb now) :
    rl_allow cfg (some rb) now =
      ((false,
        max 1 (if 0 < cfg.refill then (1 - rl_tokens cfg rb now) / cfg.refill else 60)),
        ⟨rl_tokens cfg rb now, now⟩) :=
  if_neg h

/-- C8: the invariant `0 <= tokens <= capacity` holds for a freshly
created bucket and is preserved by every call of the limiter
(refill, admit-decrement and deny all keep tokens in range). -/
theorem rl_allow_preserves_inv (cfg : RLConfig) (hc : 1 ≤ cfg.rl_max)
    (b : Option RateBucket) (now : ℚ)
    (hb : ∀ rb, b = some rb → bucketInv cfg rb) :
    bucketInv cfg (rl_allow cfg b now).2 := by
  have hrm : (1 : ℚ) ≤ (cfg.rl_max : ℚ) := by exact_mod_cast hc
  cases b with
  | none =>
    rw [rl_allow_none]
    refine ⟨?_, ?_⟩
    · show (0 : ℚ) ≤ (cfg.rl_max : ℚ) - 1
      linarith
    · show (cfg.rl_max : ℚ) - 1 ≤ (cfg.rl_max : ℚ)
      linarith
  | some rb =>
    obtain ⟨ht0, htc⟩ := rl_tokens_bounds cfg rb now (hb rb rfl)
    by_cases hge : 1 ≤ rl_tokens cfg rb now
    · rw [rl_allow_some_allowed cfg rb now hge]
      refine ⟨?_, ?_⟩
      · show (0 : ℚ) ≤ rl_tokens cfg rb now - 1
        linarith
      · show rl_tokens cfg rb now - 1 ≤ (cfg.rl_max : ℚ)
        linarith
    · rw [rl_allow_some_denied cfg rb now hge]
      exact ⟨ht0, htc⟩

/-- C8 (witness): the invariant is preserved at a concrete state, a
bucket with half a token under the default `60/1` configuration. -/
theorem rl_allow_preserves_inv_witness :
    bucketInv ⟨60, 1⟩ (rl_allow ⟨60, 1⟩ (some ⟨1/2, 0⟩) 0).2 :=
  rl_allow_preserves_inv ⟨60, 1⟩ (by decide) (some ⟨1/2, 0⟩) 0
    (fun rb h => by
      injection h with h'
      subst h'
      exact ⟨by norm_num, by norm_num⟩)

/-- Refilling at the very time of the last touch is a no-op: with zero
elapsed time the token count is unchanged (when within capacity). -/
theorem rl_tokens_same_time (cfg : RLConfig) (x now : ℚ)
    (hx : x ≤ (cfg.rl_max : ℚ)) :
    rl_tokens cfg ⟨x, now⟩ now = x := by
  unfold rl_tokens
  have h0 : max (0 : ℚ) (now - now) = 0 := by
    rw [sub_self]
    exact max_self 0
  rw [h0, zero_mul, add_zero]
  exact min_eq_right hx

/-- After `j` instant requests (`1 ≤ j ≤ capacity`) from a fresh
client, the bucket holds exactly `capacity - j` tokens. -/
theorem rl_afterN_eq (cfg : RLConfig) (now : ℚ) :
    ∀ j, 1 ≤ j → j ≤ cfg.rl_max →
      rl_afterN cfg now j = some ⟨(cfg.rl_max : ℚ) - (j : ℚ), now⟩ := by
  intro j
  induction j with
  | zero => intro h; exact absurd h (by omega)
  | succ n ih =>
    intro _ hle
    rcases Nat.eq_zero_or_pos n with h0 | hpos
    · subst h0
      show some (rl_allow cfg (rl_afterN cfg now 0) now).2 = _
      rw [show rl_afterN cfg now 0 = none from rfl, rl_allow_none]
      norm_num
    · have hn := ih hpos (by omega)
      show some (rl_allow cfg (rl_afterN cfg now n) now).2 = _
      rw [hn]
      have hnle : (n : ℚ) + 1 ≤ (cfg.rl_max : ℚ) := by exact_mod_cast hle
      have htok : rl_tokens cfg ⟨(cfg.rl_max : ℚ) - (n : ℚ), now⟩ now
          = (cfg.rl_max : ℚ) - (n : ℚ) := by
        apply rl_tokens_same_time
        have : (0 : ℚ) ≤ (n : ℚ) := Nat.cast_nonneg n
        linarith
      have hge : 1 ≤ rl_tokens cfg ⟨(cfg.rl_max : ℚ) - (n : ℚ), now⟩ now := by
        rw [htok]
        linarith
      rw [rl_allow_some_allowed cfg _ now hge]
      simp only [Option.some.injEq, RateBucket.mk.injEq]
      refine ⟨?_, trivial⟩
      rw [htok]
      push_cast
      ring

/-- Requests `1 .. capacity` of an instant burst from a fresh client
are all admitted with zero retry time. -/
theorem rl_burst_allowed (cfg : RLConfig) (now : ℚ) :
    ∀ j < cfg.rl_max, rl_resultN cfg now j = (true, 0) := by
  intro j hj
  rcases Nat.eq_zero_or_pos j with h0 | hpos
  · subst h0
    unfold rl_resultN
    rw [show rl_afterN cfg now 0 = none from rfl, rl_allow_none]
  · unfold rl_resultN
    rw [rl_afterN_eq cfg now j hpos (by omega)]
    have hjle : (j : ℚ) + 1 ≤ (cfg.rl_max : ℚ) := by exact_mod_cast hj
    have htok : rl_tokens cfg ⟨(cfg.rl_max : ℚ) - (j : ℚ), now⟩ now
        = (cfg.rl_max : ℚ) - (j : ℚ) := by
      apply rl_tokens_same_time
      have : (0 : ℚ) ≤ (j : ℚ) := Nat.cast_nonneg j
      linarith
    have hge : 1 ≤ rl_tokens cfg ⟨(cfg.rl_max : ℚ) - (j : ℚ), now⟩ now := by
      rw [htok]
      linarith
    rw [rl_allow_some_allowed cfg _ now hge]

/-- After the full burst the bucket holds zero tokens, and the
`(capacity+1)`th instant request is denied with `retry_after ≥ 1`. -/
theorem rl_burst_exhausted (cfg : RLConfig) (now : ℚ) (hc : 1 ≤ cfg.rl_max) :
    (rl_resultN cfg now cfg.rl_max).1 = false ∧
    1 ≤ (rl_resultN cfg now cfg.rl_max).2 ∧
    rl_state_after_burst cfg now = ⟨0, now⟩ := by
  have hafter : rl_afterN cfg now cfg.rl_max = some ⟨0, now⟩ := by
    rw [rl_afterN_eq cfg now cfg.rl_max hc le_rfl, sub_self]
  have htok : rl_tokens cfg ⟨0, now⟩ now = 0 :=
    rl_tokens_same_time cfg 0 now (by positivity)
  have hlt : ¬ 1 ≤ rl_tokens cfg ⟨0, now⟩ now := by
    rw [htok]
    norm_num
  unfold rl_resultN rl_state_after_burst
  rw [hafter, rl_allow_some_denied cfg _ now hlt, htok]
  refine ⟨rfl, le_max_left _ _, rfl⟩

/-- Waiting `window_seconds / capacity` after exhaustion refills
exactly one token: the next request is admitted and empties the bucket
again. -/
theorem rl_wait_refills_one (cfg : RLConfig) (now : ℚ) (hc : 1 ≤ cfg.rl_max)
    (hm : 1 ≤ cfg.rl_minutes) :
    rl_allow cfg (some ⟨0, now⟩) (now + rl_wait_time cfg) =
      ((true, 0), ⟨0, now + rl_wait_time cfg⟩) := by
  have hcq : (0 : ℚ) < (cfg.rl_max : ℚ) := by exact_mod_cast hc
  have hmq : (0 : ℚ) < (cfg.rl_minutes : ℚ) := by exact_mod_cast hm
  have hwpos : 0 ≤ rl_wait_time cfg := by
    unfold rl_wait_time
    positivity
  have hprod : rl_wait_time cfg * cfg.refill = 1 := by
    unfold rl_wait_time RLConfig.refill
    field_simp
  have htok : rl_tokens cfg ⟨0, now⟩ (now + rl_wait_time cfg) = 1 := by
    unfold rl_tokens
    have he : max (0 : ℚ) (now + rl_wait_time cfg - now) = rl_wait_time cfg := by
      rw [add_sub_cancel_left]
      exact max_eq_right hwpos
    rw [he, zero_add, hprod]
    exact min_eq_right (by exact_mod_cast hc)
  rw [rl_allow_some_allowed cfg _ _ (by rw [htok]), htok]
  norm_num

/-- C4: from a fresh client identifier with no elapsed time, exactly
`capacity` consecutive requests are admitted, the `(capacity+1)`th is
denied with `retry_after ≥ 1`, and after waiting
`window_seconds / capacity` more seconds exactly one further request
is admitted (the one after it is denied again). -/
theorem rl_burst_behavior (cfg : RLConfig) (now : ℚ) (hc : 1 ≤ cfg.rl_max)
    (hm : 1 ≤ cfg.rl_minutes) :
    (∀ j < cfg.rl_max, rl_resultN cfg now j = (true, 0)) ∧
    (rl_resultN cfg now cfg.rl_max).1 = false ∧
    1 ≤ (rl_resultN cfg now cfg.rl_max).2 ∧
    (rl_allow cfg (some (rl_state_after_burst cfg now))
      (now + rl_wait_time cfg)).1 = (true, 0) ∧
    (rl_allow cfg
      (some ((rl_allow cfg (some (rl_state_after_burst cfg now))
        (now + rl_wait_time cfg)).2))
      (now + rl_wait_time cfg)).1.1 = false := by
  obtain ⟨hden, hretry, hstate⟩ := rl_burst_exhausted cfg now hc
  have hwait := rl_wait_refills_one cfg now hc hm
  refine ⟨rl_burst_allowed cfg now, hden, hretry, ?_, ?_⟩
  · rw [hstate, hwait]
  · rw [hstate, hwait]
    have htok : rl_tokens cfg ⟨0, now + rl_wait_time cfg⟩
        (now + rl_wait_time cfg) = 0 :=
      rl_tokens_same_time cfg 0 _ (by positivity)
    have hlt : ¬ 1 ≤ rl_tokens cfg ⟨0, now + rl_wait_time cfg⟩
        (now + rl_wait_time cfg) := by
      rw [htok]
      norm_num
    rw [rl_allow_some_denied cfg _ _ hlt]

/-- C4 (witness): the burst behavior at the concrete configuration
`3/1` (three requests per minute) starting at time 0: the third request
is admitted, the fourth denied with `retry_after ≥ 1`, and the request
issued `60/3 = 20` seconds later is admitted. -/
theorem rl_burst_behavior_witness :
    rl_resultN ⟨3, 1⟩ 0 2 = (true, 0) ∧
    (rl_resultN ⟨3, 1⟩ 0 3).1 = false ∧
    1 ≤ (rl_resultN ⟨3, 1⟩ 0 3).2 ∧
    (rl_allow ⟨3, 1⟩ (some (rl_state_after_burst ⟨3, 1⟩ 0))
      (0 + rl_wait_time ⟨3, 1⟩)).1 = (true, 0) := by
  obtain ⟨h1, h2, h3, h4, h5⟩ := rl_burst_behavior ⟨3, 1⟩ 0 (by decide) (by decide)
  exact ⟨h1 2 (by decide), h2, h3, h4⟩

/-- The refill rate of the `2/1` configuration is `1/30` tokens per
second. -/
theorem rl_refill_21 : RLConfig.refill ⟨2, 1⟩ = 1 / 30 := by
  unfold RLConfig.refill
  dsimp only
  norm_num

/-- Concrete run under the `2/1` configuration: two instant requests
from a fresh client, then a third one 7.5 seconds later; the third is
denied at a refilled token count of `1/4` with `retry_after = 45/2`. -/
theorem rl_run_example :
    rl_allow ⟨2, 1⟩
      (some (rl_allow ⟨2, 1⟩ (some (rl_allow ⟨2, 1⟩ none 0).2) 0).2)
      (15 / 2) = ((false, 45 / 2), ⟨1 / 4, 15 / 2⟩) := by
  have e1 : (rl_allow (⟨2, 1⟩ : RLConfig) none 0).2 = (⟨1, 0⟩ : RateBucket) := by
    rw [rl_allow_none]
    dsimp only
    norm_num [RateBucket.mk.injEq]
  rw [e1]
  have htok1 : rl_tokens ⟨2, 1⟩ ⟨1, 0⟩ 0 = 1 :=
    rl_tokens_same_time _ _ _ (by norm_num)
  have e2 : (rl_allow (⟨2, 1⟩ : RLConfig) (some ⟨1, 0⟩) 0).2
      = (⟨0, 0⟩ : RateBucket) := by
    rw [rl_allow_some_allowed _ _ _ (le_of_eq htok1.symm)]
    dsimp only
    rw [htok1]
    norm_num [RateBucket.mk.injEq]
  rw [e2]
  have htok3 : rl_tokens ⟨2, 1⟩ ⟨0, 0⟩ (15 / 2) = 1 / 4 := by
    unfold rl_tokens
    rw [rl_refill_21]
    dsimp only
    rw [sub_zero, max_eq_right (by norm_num : (0 : ℚ) ≤ 15 / 2)]
    rw [show (0 : ℚ) + 15 / 2 * (1 / 30) = 1 / 4 by norm_num]
    exact min_eq_right (by norm_num)
  have hlt : ¬ 1 ≤ rl_tokens ⟨2, 1⟩ ⟨0, 0⟩ (15 / 2) := by
    rw [htok3]
    norm_num
  rw [rl_allow_some_denied _ _ _ hlt, htok3]
  rw [if_pos (refill_pos _ (by decide) (by decide)), rl_refill_21]
  rw [show ((1 : ℚ) - 1 / 4) / (1 / 30) = 45 / 2 by norm_num]
  rw [max_eq_right (by norm_num : (1 : ℚ) ≤ 45 / 2)]

/-- C5 (counterexample): in the concrete run of `rl_run_example` the
third request is denied at token count `1/4`, and the returned
`retry_after` is the raw quotient `45/2 = 22.5`, not
`ceil((1 - 1/4) / refill_rate) = 23` as the claim states. -/
theorem rl_retry_not_ceil :
    (rl_allow ⟨2, 1⟩
      (some (rl_allow ⟨2, 1⟩ (some (rl_allow ⟨2, 1⟩ none 0).2) 0).2)
      (15 / 2)).1 = (false, 45 / 2) ∧
    (rl_allow ⟨2, 1⟩
      (some (rl_allow ⟨2, 1⟩ (some (rl_allow ⟨2, 1⟩ none 0).2) 0).2)
      (15 / 2)).2.tokens = 1 / 4 ∧
    (45 / 2 : ℚ) ≠
      max 1 ((⌈((1 : ℚ) - 1 / 4) / RLConfig.refill ⟨2, 1⟩⌉ : ℤ) : ℚ) := by
  refine ⟨by rw [rl_run_example], by rw [rl_run_example], ?_⟩
  have hceil : ⌈((1 : ℚ) - 1 / 4) / RLConfig.refill ⟨2, 1⟩⌉ = 23 := by
    rw [rl_refill_21, show ((1 : ℚ) - 1 / 4) / (1 / 30) = 45 / 2 by norm_num]
    rw [Int.ceil_eq_iff]
    constructor <;> norm_num
  rw [hceil]
  rw [max_eq_right (by norm_num : (1 : ℚ) ≤ ((23 : ℤ) : ℚ))]
  norm_num

/-- C5 (amended): whenever the limiter denies a request, the returned
`retry_after_seconds` equals `(1 - tokens) / refill_rate` floored at 1
second — the raw quotient, with no ceiling applied — so it is at least
1, and the integer truncation carried by the `Retry-After` header is
at least 1. -/
theorem rl_retry_formula (cfg : RLConfig) (hc : 1 ≤ cfg.rl_max)
    (hm : 1 ≤ cfg.rl_minutes) (rb : RateBucket) (now r : ℚ)
    (h : (rl_allow cfg (some rb) now).1 = (false, r)) :
    r = max 1 ((1 - rl_tokens cfg rb now) / cfg.refill) ∧
    1 ≤ r ∧ 1 ≤ ⌊r⌋ := by
  by_cases hge : 1 ≤ rl_tokens cfg rb now
  · rw [rl_allow_some_allowed cfg rb now hge] at h
    simp at h
  · rw [rl_allow_some_denied cfg rb now hge] at h
    rw [if_pos (refill_pos cfg hc hm)] at h
    injection h with h1 h2
    refine ⟨h2.symm, ?_, ?_⟩
    · rw [← h2]
      exact le_max_left _ _
    · rw [Int.le_floor, ← h2]
      exact_mod_cast le_max_left (1 : ℚ) _

/-- Concrete denial: a bucket holding `1/4` tokens under the `2/1`
configuration, touched again with no elapsed time, is denied with
`retry_after = 45/2`. -/
theorem rl_denial_quarter :
    (rl_allow ⟨2, 1⟩ (some ⟨1 / 4, 0⟩) 0).1 = (false, 45 / 2) := by
  have htok : rl_tokens ⟨2, 1⟩ ⟨1 / 4, 0⟩ 0 = 1 / 4 :=
    rl_tokens_same_time _ _ _ (by norm_num)
  have hlt : ¬ 1 ≤ rl_tokens ⟨2, 1⟩ ⟨1 / 4, 0⟩ 0 := by
    rw [htok]
    norm_num
  rw [rl_allow_some_denied _ _ _ hlt]
  dsimp only
  rw [htok, if_pos (refill_pos _ (by decide) (by decide)), rl_refill_21]
  rw [show ((1 : ℚ) - 1 / 4) / (1 / 30) = 45 / 2 by norm_num]
  rw [max_eq_right (by norm_num : (1 : ℚ) ≤ 45 / 2)]

/-- C5 (witness): the amended formula at the concrete denial of the
counterexample state (token count `1/4` under the `2/1`
configuration). -/
theorem rl_retry_formula_witness :
    (45 / 2 : ℚ) =
      max 1 ((1 - rl_tokens ⟨2, 1⟩ ⟨1 / 4, 0⟩ 0) / RLConfig.refill ⟨2, 1⟩) ∧
    1 ≤ (45 / 2 : ℚ) ∧ 1 ≤ ⌊(45 / 2 : ℚ)⌋ :=
  rl_retry_formula ⟨2, 1⟩ (by decide) (by decide) ⟨1 / 4, 0⟩ 0 (45 / 2)
    rl_denial_quarter

/-- Whitespace characters recognised by the source's regex `\s` (the
ASCII whitespace class). -/
def isPySpace (c : Char) : Bool :=
  c == ' ' || c == '\t' || c == '\n' || c == '\r' || c == '\x0b' || c == '\x0c'

/-- The substitution `re.sub(r"\s+", " ", s)` of the source: every
maximal nonempty run of whitespace becomes a single space. -/
def pyCollapse : List Char → List Char
  | [] => []
  | c :: rest =>
    if isPySpace c then ' ' :: pyCollapse (rest.dropWhile isPySpace)
    else c :: pyCollapse rest
termination_by l => l.length
decreasing_by
  all_goals
    have h : (rest.dropWhile isPySpace).length ≤ rest.length :=
      (List.dropWhile_sublist isPySpace).length_le
    simp_wf <;> omega

/-- Python `str.strip()`: drop whitespace from both ends. -/
def pyStrip (l : List Char) : List Char :=
  ((l.dropWhile isPySpace).reverse.dropWhile isPySpace).reverse

/-- The normalizer `clean_text` of the source: collapse whitespace
runs to single spaces, strip the ends, truncate to
`MAX_INPUT_CHARS = 8000` characters. -/
def clean_text (s : List Char) : List Char :=
  (pyStrip (pyCollapse s)).take MAX_INPUT_CHARS

/-- Adjacency constraint of collapsed text: no two neighbouring
whitespace characters. -/
def SepR (a b : Char) : Prop := isPySpace a = false ∨ isPySpace b = false

/-- A list is in collapsed form when its only whitespace character is
a plain space and no two whitespace characters are adjacent.
`pyCollapse` is the identity exactly on such lists. -/
def SpacedOK (l : List Char) : Prop :=
  (∀ c ∈ l, isPySpace c = true → c = ' ') ∧ List.Chain' SepR l

/-- Unfolding of `pyCollapse` on a whitespace head. -/
theorem pyCollapse_cons_space {c : Char} {l : List Char}
    (hc : isPySpace c = true) :
    pyCollapse (c :: l) = ' ' :: pyCollapse (l.dropWhile isPySpace) := by
  rw [pyCollapse]
  rw [if_pos hc]

/-- Unfolding of `pyCollapse` on a non-whitespace head. -/
theorem pyCollapse_cons_not {c : Char} {l : List Char}
    (hc : isPySpace c = false) :
    pyCollapse (c :: l) = c :: pyCollapse l := by
  rw [pyCollapse]
  rw [if_neg (by simp [hc])]

/-- The head of a `dropWhile` result never satisfies the predicate. -/
theorem head?_dropWhile_false (p : Char → Bool) :
    ∀ (l : List Char) (c : Char), (l.dropWhile p).head? = some c →
      p c = false := by
  intro l
  induction l with
  | nil => intro c hc; cases hc
  | cons a r ih =>
    intro c hc
    cases hpa : p a with
    | true =>
      rw [List.dropWhile_cons, if_pos hpa] at hc
      exact ih c hc
    | false =>
      rw [List.dropWhile_cons, if_neg (by simp [hpa])] at hc
      simp only [List.head?_cons, Option.some.injEq] at hc
      rw [← hc]
      exact hpa

/-- `dropWhile` is the identity when the head does not satisfy the
predicate. -/
theorem dropWhile_eq_self_of_head (p : Char → Bool) (l : List Char)
    (h : ∀ c, l.head? = some c → p c = false) : l.dropWhile p = l := by
  cases l with
  | nil => rfl
  | cons a r =>
    have ha := h a rfl
    rw [List.dropWhile_cons, if_neg (by simp [ha])]

/-- A nonempty `dropWhile` result keeps the last element of the
list. -/
theorem getLast?_dropWhile (p : Char → Bool) :
    ∀ l : List Char, l.dropWhile p ≠ [] →
      (l.dropWhile p).getLast? = l.getLast? := by
  intro l
  induction l with
  | nil => intro h; rfl
  | cons a r ih =>
    intro h
    cases hpa : p a with
    | false =>
      rw [List.dropWhile_cons, if_neg (by simp [hpa])]
    | true =>
      rw [List.dropWhile_cons, if_pos hpa] at h ⊢
      rw [ih h]
      have hr : r ≠ [] := by
        intro hre
        rw [hre] at h
        exact h rfl
      cases r with
      | nil => exact absurd rfl hr
      | cons b r' => rw [List.getLast?_cons_cons]

/-- Chains survive `dropWhile` (it removes a prefix). -/
theorem chain'_dropWhile {R : Char → Char → Prop} (p : Char → Bool) :
    ∀ l : List Char, List.Chain' R l → List.Chain' R (l.dropWhile p) := by
  intro l
  induction l with
  | nil => intro h; exact h
  | cons a r ih =>
    intro h
    rw [List.dropWhile_cons]
    split
    · exact ih h.tail
    · exact h

/-- Unfolding of `pyCollapse` on the empty list. -/
theorem pyCollapse_nil : pyCollapse [] = [] := by
  rw [pyCollapse]

/-- `pyCollapse` preserves a non-whitespace head. -/
theorem pyCollapse_head_false (l : List Char)
    (h : ∀ c, l.head? = some c → isPySpace c = false) :
    ∀ c, (pyCollapse l).head? = some c → isPySpace c = false := by
  cases l with
  | nil =>
    intro c hc
    rw [pyCollapse_nil] at hc
    cases hc
  | cons a r =>
    have ha := h a rfl
    rw [pyCollapse_cons_not ha]
    intro c hc
    simp only [List.head?_cons, Option.some.injEq] at hc
    rw [← hc]
    exact ha

/-- Every output of `pyCollapse` is in collapsed form: the only
whitespace left is single interior spaces. -/
theorem pyCollapse_SpacedOK : ∀ l, SpacedOK (pyCollapse l) := by
  intro l
  induction l using pyCollapse.induct with
  | case1 =>
    exact ⟨by simp [pyCollapse], by simp [pyCollapse]⟩
  | case2 c rest hc ih =>
    obtain ⟨ihA, ihB⟩ := ih
    rw [pyCollapse_cons_space hc]
    constructor
    · intro d hd hds
      rcases List.mem_cons.mp hd with h1 | h2
      · exact h1
      · exact ihA d h2 hds
    · rw [List.chain'_cons']
      refine ⟨?_, ihB⟩
      intro y hy
      rw [Option.mem_def] at hy
      right
      exact pyCollapse_head_false _ (head?_dropWhile_false isPySpace rest) y hy
  | case3 c rest hc ih =>
    obtain ⟨ihA, ihB⟩ := ih
    have hcf : isPySpace c = false := by
      simpa using hc
    rw [pyCollapse_cons_not hcf]
    constructor
    · intro d hd hds
      rcases List.mem_cons.mp hd with h1 | h2
      · rw [h1] at hds
        rw [hds] at hcf
        cases hcf
      · exact ihA d h2 hds
    · rw [List.chain'_cons']
      exact ⟨fun y _ => Or.inl hcf, ihB⟩

/-- `pyCollapse` is the identity on lists in collapsed form. -/
theorem pyCollapse_eq_self : ∀ l, SpacedOK l → pyCollapse l = l := by
  intro l
  induction l using pyCollapse.induct with
  | case1 => intro h; exact pyCollapse_nil
  | case2 c rest hc ih =>
    intro h
    obtain ⟨hA, hB⟩ := h
    have hcs : c = ' ' := hA c (List.mem_cons_self c rest) hc
    rw [List.chain'_cons'] at hB
    obtain ⟨hhead, htail⟩ := hB
    have hdrop : rest.dropWhile isPySpace = rest := by
      apply dropWhile_eq_self_of_head
      intro d hd
      rcases hhead d (by rw [Option.mem_def, hd]) with h1 | h2
      · rw [hc] at h1
        cases h1
      · exact h2
    have hrest : SpacedOK (rest.dropWhile isPySpace) := by
      rw [hdrop]
      exact ⟨fun d hd hds => hA d (List.mem_cons_of_mem c hd) hds, htail⟩
    rw [pyCollapse_cons_space hc, ih hrest, hdrop, hcs]
  | case3 c rest hc ih =>
    intro h
    obtain ⟨hA, hB⟩ := h
    rw [List.chain'_cons'] at hB
    have hcf : isPySpace c = false := by
      simpa using hc
    have hrest : SpacedOK rest :=
      ⟨fun d hd hds => hA d (List.mem_cons_of_mem c hd) hds, hB.2⟩
    rw [pyCollapse_cons_not hcf, ih hrest]

/-- `pyStrip` preserves collapsed form. -/
theorem SpacedOK_pyStrip (l : List Char) (h : SpacedOK l) :
    SpacedOK (pyStrip l) := by
  obtain ⟨hA, hB⟩ := h
  constructor
  · intro c hc hcs
    apply hA c ?_ hcs
    unfold pyStrip at hc
    rw [List.mem_reverse] at hc
    have h1 := (List.dropWhile_sublist isPySpace).subset hc
    rw [List.mem_reverse] at h1
    exact (List.dropWhile_sublist isPySpace).subset h1
  · unfold pyStrip
    rw [List.chain'_reverse]
    apply chain'_dropWhile
    rw [List.chain'_reverse]
    apply chain'_dropWhile
    exact List.Chain'.imp (fun a b hab => hab) hB

/-- The head of a `pyStrip` output is never whitespace. -/
theorem pyStrip_head (l : List Char) :
    ∀ c, (pyStrip l).head? = some c → isPySpace c = false := by
  intro c hc
  unfold pyStrip at hc
  rw [List.head?_reverse] at hc
  by_cases hB :
      ((l.dropWhile isPySpace).reverse.dropWhile isPySpace) = []
  · rw [hB] at hc
    cases hc
  · rw [getLast?_dropWhile isPySpace _ hB, List.getLast?_reverse] at hc
    exact head?_dropWhile_false isPySpace l c hc

/-- The last element of a `pyStrip` output is never whitespace. -/
theorem pyStrip_last (l : List Char) :
    ∀ c, (pyStrip l).getLast? = some c → isPySpace c = false := by
  intro c hc
  unfold pyStrip at hc
  rw [List.getLast?_reverse] at hc
  exact head?_dropWhile_false isPySpace _ c hc

/-- `pyStrip` is the identity when neither end is whitespace. -/
theorem pyStrip_eq_self (l : List Char)
    (hh : ∀ c, l.head? = some c → isPySpace c = false)
    (hl : ∀ c, l.getLast? = some c → isPySpace c = false) :
    pyStrip l = l := by
  unfold pyStrip
  rw [dropWhile_eq_self_of_head isPySpace l hh]
  rw [dropWhile_eq_self_of_head isPySpace l.reverse
    (fun c hc => hl c (by rwa [List.head?_reverse] at hc))]
  exact List.reverse_reverse l

/-- `pyCollapse` never lengthens a list. -/
theorem length_pyCollapse_le : ∀ l : List Char,
    (pyCollapse l).length ≤ l.length := by
  intro l
  induction l using pyCollapse.induct with
  | case1 => simp [pyCollapse]
  | case2 c rest hc ih =>
    rw [pyCollapse_cons_space hc]
    have h := (List.dropWhile_sublist (l := rest) isPySpace).length_le
    simp only [List.length_cons]
    omega
  | case3 c rest hc ih =>
    have hcf : isPySpace c = false := by
      simpa using hc
    rw [pyCollapse_cons_not hcf]
    simp only [List.length_cons]
    omega

/-- `pyStrip` never lengthens a list. -/
theorem length_pyStrip_le (l : List Char) :
    (pyStrip l).length ≤ l.length := by
  unfold pyStrip
  rw [List.length_reverse]
  calc ((l.dropWhile isPySpace).reverse.dropWhile isPySpace).length
      ≤ (l.dropWhile isPySpace).reverse.length :=
        (List.dropWhile_sublist isPySpace).length_le
    _ = (l.dropWhile isPySpace).length := List.length_reverse _
    _ ≤ l.length := (List.dropWhile_sublist isPySpace).length_le

/-- C7 (amended): the normalizer is idempotent whenever the collapsed
and trimmed text fits within the 8000-character budget, i.e. whenever
the truncation step does not cut the text. -/
theorem clean_text_idem (s : List Char)
    (h : (pyStrip (pyCollapse s)).length ≤ MAX_INPUT_CHARS) :
    clean_text (clean_text s) = clean_text s := by
  have ht : clean_text s = pyStrip (pyCollapse s) := List.take_of_length_le h
  rw [ht]
  unfold clean_text
  rw [pyCollapse_eq_self _ (SpacedOK_pyStrip _ (pyCollapse_SpacedOK s))]
  rw [pyStrip_eq_self _ (pyStrip_head _) (pyStrip_last _)]
  exact List.take_of_length_le h

/-- C7 (witness): idempotence at the short input `"a  b"`, whose
normal form `"a b"` is far below the budget. -/
theorem clean_text_idem_witness :
    clean_text (clean_text ['a', ' ', ' ', 'b']) =
      clean_text ['a', ' ', ' ', 'b'] :=
  clean_text_idem ['a', ' ', ' ', 'b']
    (le_trans (length_pyStrip_le _)
      (le_trans (length_pyCollapse_le _) (by norm_num [MAX_INPUT_CHARS])))

/-- Last element of a nonempty replicate. -/
theorem getLast?_replicate_succ (n : ℕ) (a : Char) :
    (List.replicate (n + 1) a).getLast? = some a := by
  induction n with
  | zero => rfl
  | succ m ih =>
    rw [List.replicate_succ, List.replicate_succ, List.getLast?_cons_cons,
      ← List.replicate_succ]
    exact ih

/-- The 8002-character input of the truncation counterexample: 7999
letters, a space, and two more letters. -/
def truncInput : List Char := List.replicate 7999 'a' ++ [' ', 'b', 'b']

/-- The counterexample input is already in collapsed form. -/
theorem spacedOK_truncInput : SpacedOK truncInput := by
  unfold truncInput
  constructor
  · intro c hc hcs
    rcases List.mem_append.mp hc with h1 | h2
    · rw [List.eq_of_mem_replicate h1] at hcs
      exact absurd hcs (by decide)
    · simp only [List.mem_cons, List.not_mem_nil, or_false] at h2
      rcases h2 with h2 | h2 | h2
      · exact h2
      · rw [h2] at hcs
        exact absurd hcs (by decide)
      · rw [h2] at hcs
        exact absurd hcs (by decide)
  · rw [List.chain'_append]
    refine ⟨List.chain'_replicate_of_rel 7999 (Or.inl (by decide)), ?_, ?_⟩
    · exact List.chain'_cons.mpr ⟨Or.inr (by decide),
        List.chain'_cons.mpr ⟨Or.inl (by decide), List.chain'_singleton 'b'⟩⟩
    · intro x hx y hy
      rw [Option.mem_def] at hx
      rw [show (7999 : ℕ) = 7998 + 1 from rfl, getLast?_replicate_succ] at hx
      cases hx
      exact Or.inl (by decide)

/-- `pyStrip` leaves the counterexample input unchanged: neither end
is whitespace. -/
theorem pyStrip_truncInput : pyStrip truncInput = truncInput := by
  apply pyStrip_eq_self
  · intro c hc
    rw [show truncInput.head? = some 'a' by
      unfold truncInput
      rw [show (7999 : ℕ) = 7998 + 1 from rfl, List.replicate_succ,
        List.cons_append]
      rfl] at hc
    cases hc
    decide
  · intro c hc
    rw [show truncInput.getLast? = some 'b' by
      unfold truncInput
      rw [List.getLast?_append]
      rfl] at hc
    cases hc
    decide

/-- Normalizing the counterexample input truncates right after the
space: the result is 7999 letters followed by a trailing space. -/
theorem clean_text_truncInput :
    clean_text truncInput = List.replicate 7999 'a' ++ [' '] := by
  unfold clean_text
  rw [pyCollapse_eq_self _ spacedOK_truncInput, pyStrip_truncInput]
  unfold truncInput
  rw [List.take_append_eq_append_take, List.length_replicate]
  rw [List.take_of_length_le (by rw [List.length_replicate]; norm_num [MAX_INPUT_CHARS])]
  norm_num [MAX_INPUT_CHARS]

/-- The truncated result in turn is in collapsed form. -/
theorem spacedOK_truncResult :
    SpacedOK (List.replicate 7999 'a' ++ [' ']) := by
  constructor
  · intro c hc hcs
    rcases List.mem_append.mp hc with h1 | h2
    · rw [List.eq_of_mem_replicate h1] at hcs
      exact absurd hcs (by decide)
    · simp only [List.mem_singleton] at h2
      exact h2
  · rw [List.chain'_append]
    refine ⟨List.chain'_replicate_of_rel 7999 (Or.inl (by decide)),
      List.chain'_singleton ' ', ?_⟩
    intro x hx y hy
    rw [Option.mem_def] at hx
    rw [show (7999 : ℕ) = 7998 + 1 from rfl, getLast?_replicate_succ] at hx
    cases hx
    exact Or.inl (by decide)

/-- Normalizing the truncated result strips the trailing space,
yielding a strictly shorter list. -/
theorem clean_text_truncResult :
    clean_text (List.replicate 7999 'a' ++ [' ']) =
      List.replicate 7999 'a' := by
  unfold clean_text
  rw [pyCollapse_eq_self _ spacedOK_truncResult]
  have hstrip : pyStrip (List.replicate 7999 'a' ++ [' '])
      = List.replicate 7999 'a' := by
    unfold pyStrip
    rw [dropWhile_eq_self_of_head isPySpace (List.replicate 7999 'a' ++ [' '])
      (fun c hc => by
      rw [show (List.replicate 7999 'a' ++ [' ']).head? = some 'a' by
        rw [show (7999 : ℕ) = 7998 + 1 from rfl, List.replicate_succ,
          List.cons_append]
        rfl] at hc
      cases hc
      decide)]
    rw [List.reverse_append, List.reverse_replicate]
    rw [show ([' '] : List Char).reverse = [' '] from rfl, List.singleton_append]
    rw [List.dropWhile_cons, if_pos (by decide)]
    rw [dropWhile_eq_self_of_head isPySpace _ (fun c hc => by
      rw [show (List.replicate 7999 'a').head? = some 'a' by
        rw [show (7999 : ℕ) = 7998 + 1 from rfl, List.replicate_succ]
        rfl] at hc
      cases hc
      decide)]
    exact List.reverse_replicate 7999 'a'
  rw [hstrip]
  exact List.take_of_length_le (by rw [List.length_replicate]; norm_num [MAX_INPUT_CHARS])

/-- C7 (counterexample): the normalizer is not idempotent.  On 7999
letters, a space and two more letters, the first pass truncates to a
string ending in a space and the second pass strips that space, so the
results differ. -/
theorem clean_text_not_idempotent :
    clean_text (clean_text truncInput) ≠ clean_text truncInput := by
  rw [clean_text_truncInput, clean_text_truncResult]
  intro h
  have hlen := congrArg List.length h
  rw [List.length_replicate, List.length_append, List.length_replicate] at hlen
  simp at hlen

/-- Word counter of the source, `len(s.split())`: the number of
maximal nonempty runs of non-whitespace characters.  The Boolean flag
records whether the scanner is currently inside a word. -/
def countWords : List Char → Bool → ℕ
  | [], _ => 0
  | c :: r, inWord =>
    if isPySpace c then countWords r false
    else (if inWord then 0 else 1) + countWords r true

/-- The `word_count` helper of the source. -/
def word_count (s : List Char) : ℕ := countWords s false

/-- Which extraction stage produced the text. -/
inductive Stage where
  | primary
  | fallback
deriving DecidableEq

/-- The two-stage extraction chain of the source endpoints: run the
primary extractor `A` (trafilatura); if its output has fewer than 30
words, run the fallback extractor `B` (selectolax paragraph
stitching) instead.  The extractors are external collaborators and
enter the model as function parameters. -/
def extract_chain (A B : List Char → List Char) (html : List Char) :
    List Char × Stage :=
  if word_count (A html) < 30 then (B html, .fallback) else (A html, .primary)

/-- Terminal outcome of the `/summarize-html` endpoint, up to the
model invocation: `summarized` means the request reached the external
summarizer with the given text, stage and resolved bounds. -/
inductive HtmlOutcome where
  | rateLimited (status : ℕ) (retry : ℚ)
  | noContent (status : ℕ)
  | badLengths (status : ℕ)
  | summarized (text : List Char) (stage : Stage) (min_len max_len : ℤ)

/-- The `/summarize-html` endpoint of the source: admission control,
two-stage extraction, the 30-word minimum-content check, normalization
and the length policy. -/
def summarize_html (cfg : RLConfig) (A B : List Char → List Char)
    (bucket : Option RateBucket) (now : ℚ) (html : List Char)
    (min_len max_len : ℤ) : HtmlOutcome × RateBucket :=
  let r := rl_allow cfg bucket now
  if r.1.1 = false then (.rateLimited 429 r.1.2, r.2)
  else
    let tc := extract_chain A B html
    if word_count tc.1 < 30 then (.noContent 422, r.2)
    else
      match clamp_lengths min_len max_len (word_count tc.1) with
      | .error _ => (.badLengths 422, r.2)
      | .ok m M => (.summarized (clean_text tc.1) tc.2 m M, r.2)

/-- Terminal outcome of the plain-text `/summarize` endpoint, up to
the model invocation. -/
inductive TextOutcome where
  | rateLimited (status : ℕ) (retry : ℚ)
  | noContent (status : ℕ)
  | badLengths (status : ℕ)
  | summarized (text : List Char) (min_len max_len : ℤ)

/-- The `/summarize` endpoint of the source: admission control,
normalization, the emptiness check (`if not text`), and the length
policy.  No word-count threshold appears on this path. -/
def summarize (cfg : RLConfig) (bucket : Option RateBucket) (now : ℚ)
    (text : List Char) (min_len max_len : ℤ) : TextOutcome × RateBucket :=
  let r := rl_allow cfg bucket now
  if r.1.1 = false then (.rateLimited 429 r.1.2, r.2)
  else
    let t := clean_text text
    if t = [] then (.noContent 422, r.2)
    else
      match clamp_lengths min_len max_len (word_count t) with
      | .error _ => (.badLengths 422, r.2)
      | .ok m M => (.summarized t m M, r.2)

/-- C6: the fallback extractor runs if and only if the primary
extractor's output has fewer than 30 words, and when both stages stay
under 30 words an admitted raw-HTML request fails with `NO_CONTENT`
and HTTP status 422. -/
theorem html_fallback_iff (cfg : RLConfig) (A B : List Char → List Char)
    (bucket : Option RateBucket) (now : ℚ) (html : List Char) (mi ma : ℤ)
    (hadm : (rl_allow cfg bucket now).1.1 = true) :
    ((extract_chain A B html).2 = .fallback ↔ word_count (A html) < 30) ∧
    (word_count (A html) < 30 → word_count (B html) < 30 →
      (summarize_html cfg A B bucket now html mi ma).1 = .noContent 422) := by
  constructor
  · unfold extract_chain
    by_cases hlt : word_count (A html) < 30
    · rw [if_pos hlt]
      simp [hlt]
    · rw [if_neg hlt]
      simp [hlt]
  · intro hA hB
    have hchain : extract_chain A B html = (B html, .fallback) := by
      unfold extract_chain
      rw [if_pos hA]
    unfold summarize_html
    rw [if_neg (by simp [hadm]), hchain]
    dsimp only
    rw [if_pos hB]

/-- C6 (witness): with extractors that both return empty text, an
admitted request under the default configuration takes the fallback
stage and fails with `NO_CONTENT` at status 422. -/
theorem html_fallback_iff_witness :
    (extract_chain (fun _ => []) (fun _ => []) []).2 = Stage.fallback ∧
    (summarize_html ⟨60, 1⟩ (fun _ => []) (fun _ => []) none 0 [] 60 180).1 =
      .noContent 422 := by
  obtain ⟨hiff, hnc⟩ :=
    html_fallback_iff ⟨60, 1⟩ (fun _ => []) (fun _ => []) none 0 [] 60 180 rfl
  exact ⟨hiff.mpr (by decide), hnc (by decide) (by decide)⟩

/-- The default request bounds `min_len = 60, max_len = 180` are
accepted by the length policy at every word count. -/
theorem clamp_defaults_ok (w : ℕ) :
    ∃ m M, clamp_lengths 60 180 w = .ok m M := by
  have hs : step1 60 180 = .ok 60 180 := step1_valid (by norm_num)
  by_cases hw : w < 80
  · obtain ⟨m', M', heq, -, -, -, -⟩ :=
      shortAdjust_ok (m := 60) (M := 180) w (by norm_num) (by norm_num)
        (by norm_num)
    exact ⟨m', M', by rw [clamp_lengths_lt80 hw hs]; exact heq⟩
  · refine ⟨60, 180, ?_⟩
    rw [clamp_lengths_ge80 (by omega), hs]

/-- The normalizer maps the empty input to the empty string. -/
theorem clean_text_nil : clean_text [] = [] := by
  unfold clean_text
  rw [pyCollapse_nil]
  rfl

/-- The normalizer leaves the two-character input `"hi"` unchanged. -/
theorem clean_text_hi : clean_text ['h', 'i'] = ['h', 'i'] := by
  unfold clean_text
  rw [pyCollapse_cons_not (by decide), pyCollapse_cons_not (by decide),
    pyCollapse_nil]
  rw [pyStrip_eq_self _ (fun c hc => by cases hc; decide)
    (fun c hc => by cases hc; decide)]
  exact List.take_of_length_le (by norm_num [MAX_INPUT_CHARS])

/-- C10: on the plain-text `/summarize` endpoint an admitted request
whose text normalizes to the empty string fails with `NO_CONTENT` and
status 422; any non-empty normalized text is never rejected for lack
of content — with the endpoint's default bounds it always reaches the
summarizer, whatever its word count — so the 30-word minimum applies
only to the extraction endpoints. -/
theorem summarize_no_word_minimum (cfg : RLConfig)
    (bucket : Option RateBucket) (now : ℚ) (text : List Char)
    (hadm : (rl_allow cfg bucket now).1.1 = true) :
    (clean_text text = [] →
      (summarize cfg bucket now text 60 180).1 = .noContent 422) ∧
    (clean_text text ≠ [] →
      (∀ mi ma : ℤ, ∀ s : ℕ,
        (summarize cfg bucket now text mi ma).1 ≠ .noContent s) ∧
      ∃ m M : ℤ, (summarize cfg bucket now text 60 180).1 =
        .summarized (clean_text text) m M) := by
  constructor
  · intro he
    unfold summarize
    rw [if_neg (by simp [hadm])]
    dsimp only
    rw [if_pos he]
  · intro hne
    constructor
    · intro mi ma s
      unfold summarize
      rw [if_neg (by simp [hadm])]
      dsimp only
      rw [if_neg hne]
      cases hcl : clamp_lengths mi ma (word_count (clean_text text)) with
      | error e => exact fun h => TextOutcome.noConfusion h
      | ok m M => exact fun h => TextOutcome.noConfusion h
    · obtain ⟨m, M, hok⟩ := clamp_defaults_ok (word_count (clean_text text))
      refine ⟨m, M, ?_⟩
      unfold summarize
      rw [if_neg (by simp [hadm])]
      dsimp only
      rw [if_neg hne, hok]

/-- C10 (witness): an admitted empty-text request fails with
`NO_CONTENT` 422, while the two-word-free input `"hi"` (one word,
far below 30) is not rejected for lack of content. -/
theorem summarize_no_word_minimum_witness :
    (summarize ⟨60, 1⟩ none 0 [] 60 180).1 = .noContent 422 ∧
    (summarize ⟨60, 1⟩ none 0 ['h', 'i'] 7 9).1 ≠ .noContent 422 :=
  ⟨(summarize_no_word_minimum ⟨60, 1⟩ none 0 [] rfl).1 clean_text_nil,
    ((summarize_no_word_minimum ⟨60, 1⟩ none 0 ['h', 'i'] rfl).2
      (by rw [clean_text_hi]; simp)).1 7 9 422⟩

end CivicLens
